import Mathlib

/-!
Verification of the `CompetitiveKnowledgeGraph` class (knowledge_graph.py).

The class stores a typed multi-relational directed graph on top of
`networkx.MultiDiGraph` and offers mutation primitives, traversal queries and
a text-to-graph extraction routine.  This file shallowly embeds the state of
one `CompetitiveKnowledgeGraph` instance and the operations the verified
properties talk about, and proves those properties.

Modelling conventions:
* Python dicts are insertion-ordered association lists with unique keys;
  assignment replaces the value of the first matching key or appends.
* Attribute values (strings, booleans, None) are a small `PyVal` type.
* `datetime.now().isoformat()` is abstracted by an explicit `now : String`
  argument threaded through the mutation operations.
* `networkx.MultiDiGraph` is a node association list (name to attribute dict,
  insertion ordered) plus a flat edge list in insertion order; edge keys are
  the positions in that list, which matches networkx key allocation in the
  absence of deletions (the class never deletes).
* Operations that networkx makes raise (`successors` / `predecessors` on a
  missing node raise NetworkXError) are embedded in `Except String`, carrying
  the NetworkXError message.
-/

deriving instance DecidableEq for Except

/-- A Python attribute value as used by knowledge_graph.py: a string, a
boolean (`is_user_company`, `is_competitor`), or `None`. -/
inductive PyVal where
  | str : String → PyVal
  | bool : Bool → PyVal
  | none : PyVal
deriving DecidableEq, Repr

/-- A Python dict with string keys, as an insertion-ordered association
list. -/
abbrev PyDict (α : Type) : Type := List (String × α)

/-- Python dict assignment `d[k] = v`: replace the value at the first
occurrence of `k`, or append `(k, v)` when `k` is absent. -/
def pyDictSet {α : Type} : PyDict α → String → α → PyDict α
  | [], k, v => [(k, v)]
  | (k', v') :: rest, k, v =>
    if k' == k then (k', v) :: rest else (k', v') :: pyDictSet rest k v

/-- Python `d.get(k)`: the value at the first occurrence of `k`, if any. -/
def pyDictGet {α : Type} (d : PyDict α) (k : String) : Option α :=
  d.lookup k

/-- Python `d.update(new)` (what `networkx.add_node` does on an existing
node): assign every pair of `new` into `d`, left to right. -/
def pyDictUpdate {α : Type} (d new : PyDict α) : PyDict α :=
  new.foldl (fun acc p => pyDictSet acc p.1 p.2) d

/-- An attribute dict of a node or an edge. -/
abbrev Attrs : Type := PyDict PyVal

/-- One edge record of the `networkx.MultiDiGraph`: source, target and the
edge attribute dict.  The position in the graph's edge list plays the role
of the networkx edge key. -/
structure Edge where
  source : String
  target : String
  attrs : Attrs
deriving DecidableEq, Repr

/-- The `networkx.MultiDiGraph` state: nodes (name to attribute dict, in
insertion order) and the multi-edge list in insertion order. -/
structure Graph where
  nodes : PyDict Attrs
  edges : List Edge
deriving DecidableEq, Repr

/-- Python `name in self.graph`: node membership. -/
def hasNode (g : Graph) (n : String) : Bool :=
  g.nodes.any (fun p => p.1 == n)

/-- `self.graph.nodes[n]`: the attribute dict of node `n` (empty when the
node is absent; the code only reads attributes of present nodes). -/
def nodeAttrs (g : Graph) (n : String) : Attrs :=
  (pyDictGet g.nodes n).getD []

/-- `networkx.add_node(n, **attrs)`: on a fresh name the node is appended
with `attrs`; on an existing name the stored dict is UPDATED with `attrs`
(merge semantics — keys absent from `attrs` keep their old values). -/
def Graph.addNode (g : Graph) (n : String) (attrs : Attrs) : Graph :=
  if hasNode g n then
    { g with nodes := g.nodes.map (fun p => if p.1 == n then (p.1, pyDictUpdate p.2 attrs) else p) }
  else
    { g with nodes := g.nodes ++ [(n, attrs)] }

/-- `networkx.add_edge` silently creates a missing endpoint as a node with
an empty attribute dict. -/
def Graph.ensureNode (g : Graph) (n : String) : Graph :=
  if hasNode g n then g else { g with nodes := g.nodes ++ [(n, [])] }

/-- `networkx.MultiDiGraph.add_edge(u, v, **attrs)`: ensure both endpoints
exist, then always append a fresh edge (a fresh key — never a merge with an
existing parallel edge). -/
def Graph.addEdge (g : Graph) (u v : String) (attrs : Attrs) : Graph :=
  { (g.ensureNode u).ensureNode v with
    edges := ((g.ensureNode u).ensureNode v).edges ++ [⟨u, v, attrs⟩] }

/-- Keep the first occurrence of every element, in order of first
appearance (the iteration order of a networkx adjacency dict, whose keys
are inserted when the first edge to that neighbour appears). -/
def firstDedup : List String → List String
  | [] => []
  | a :: l => a :: (firstDedup l).filter (fun b => b != a)

/-- `self.graph.successors(n)`: the distinct targets of edges out of `n`,
in first-edge insertion order. -/
def successorsOf (g : Graph) (n : String) : List String :=
  firstDedup ((g.edges.filter (fun e => e.source == n)).map (fun e => e.target))

/-- `self.graph.predecessors(n)`: the distinct sources of edges into `n`,
in first-edge insertion order. -/
def predecessorsOf (g : Graph) (n : String) : List String :=
  firstDedup ((g.edges.filter (fun e => e.target == n)).map (fun e => e.source))

/-- `self.graph.get_edge_data(u, v).values()`: the attribute dicts of all
parallel edges from `u` to `v`, in edge-key (insertion) order; empty when
the pair is not adjacent (the code guards `if edges:`, which treats `None`
and an exhausted dict alike). -/
def edgesBetween (g : Graph) (u v : String) : List Attrs :=
  (g.edges.filter (fun e => e.source == u && e.target == v)).map (fun e => e.attrs)

/-- Whether some edge runs from `u` to `v`. -/
def hasEdge (g : Graph) (u v : String) : Bool :=
  g.edges.any (fun e => e.source == u && e.target == v)

/-- `self.graph.number_of_nodes()`. -/
def totalNodes (g : Graph) : Nat := g.nodes.length

/-- `self.graph.number_of_edges()`. -/
def totalEdges (g : Graph) : Nat := g.edges.length

/-- One per-type count of `export_graph_data()['stats']`:
`len([n for n, d in nodes(data=True) if d.get('entity_type') == ty])`. -/
def countEntityType (g : Graph) (ty : String) : Nat :=
  (g.nodes.filter (fun p => pyDictGet p.2 "entity_type" == some (.str ty))).length

/-- The aggregate counts of `export_graph_data()['stats']`. -/
structure Stats where
  total_nodes : Nat
  total_edges : Nat
  companies : Nat
  products : Nat
  markets : Nat
deriving DecidableEq, Repr

/-- `export_graph_data()['stats']`. -/
def exportStats (g : Graph) : Stats :=
  ⟨totalNodes g, totalEdges g, countEntityType g "company",
    countEntityType g "product", countEntityType g "market"⟩

/-- Every graph produced by the class satisfies this: edge endpoints are
nodes (networkx `add_edge` inserts missing endpoints). -/
def Graph.Wf (g : Graph) : Prop :=
  ∀ e ∈ g.edges, hasNode g e.source = true ∧ hasNode g e.target = true

instance (g : Graph) : Decidable g.Wf := by
  unfold Graph.Wf
  infer_instance

/-- The state of one `CompetitiveKnowledgeGraph` instance. -/
structure KG where
  graph : Graph
  entity_attributes : PyDict Attrs
  relationship_history : List (String × String × String)
deriving DecidableEq, Repr

/-- `CompetitiveKnowledgeGraph.__init__`. -/
def KG.empty : KG := ⟨⟨[], []⟩, [], []⟩

/-- The edge attribute dict stored by `add_relationship`: the caller's
dict with `relationship_type` and then `added_at` assigned into it. -/
def stampedRelAttrs (relationship_type : String) (attributes : Attrs) (now : String) : Attrs :=
  pyDictSet (pyDictSet attributes "relationship_type" (.str relationship_type))
    "added_at" (.str now)

/-- `add_relationship(source, target, relationship_type, attributes)`:
stamp `relationship_type` and `added_at` into the attribute dict, append a
fresh edge, and append one history record. -/
def add_relationship (kg : KG) (source target relationship_type : String)
    (attributes : Attrs) (now : String) : KG :=
  { kg with
    graph := kg.graph.addEdge source target (stampedRelAttrs relationship_type attributes now)
    relationship_history := kg.relationship_history ++ [(source, target, relationship_type)] }

/-- The node attribute dict stored by `add_company`: the caller's dict with
`added_at` and then `entity_type='company'` assigned into it. -/
def stampedCompanyAttrs (attributes : Attrs) (now : String) : Attrs :=
  pyDictSet (pyDictSet attributes "added_at" (.str now)) "entity_type" (.str "company")

/-- `add_company(company_name, attributes)`: stamp `added_at` and
`entity_type='company'`, add (or attribute-update) the node, and replace the
`entity_attributes` entry. -/
def add_company (kg : KG) (company_name : String) (attributes : Attrs) (now : String) : KG :=
  { kg with
    graph := kg.graph.addNode company_name (stampedCompanyAttrs attributes now)
    entity_attributes := pyDictSet kg.entity_attributes company_name (stampedCompanyAttrs attributes now) }

/-- `add_market(market_name, attributes)`. -/
def add_market (kg : KG) (market_name : String) (attributes : Attrs) (now : String) : KG :=
  let attributes := pyDictSet attributes "entity_type" (.str "market")
  let attributes := pyDictSet attributes "added_at" (.str now)
  { kg with
    graph := kg.graph.addNode market_name attributes
    entity_attributes := pyDictSet kg.entity_attributes market_name attributes }

/-- `add_product(product_name, company, attributes)`: add the product node,
then link it via `add_relationship(company, product_name, 'produces', ...)`. -/
def add_product (kg : KG) (product_name company : String) (attributes : Attrs) (now : String) : KG :=
  let attributes := pyDictSet attributes "entity_type" (.str "product")
  let attributes := pyDictSet attributes "added_at" (.str now)
  let kg := { kg with
    graph := kg.graph.addNode product_name attributes
    entity_attributes := pyDictSet kg.entity_attributes product_name attributes }
  add_relationship kg company product_name "produces"
    [("description", .str (company ++ " produces " ++ product_name))] now

/-- The NetworkXError message of `successors`/`predecessors` on a missing
node. -/
def nodeNotInDigraph (n : String) : String :=
  "The node " ++ n ++ " is not in the digraph."

/-- Whether an edge attribute dict marks a `competes_with` edge:
`edge_data.get('relationship_type') == 'competes_with'`. -/
def isCompetesAttrs (a : Attrs) : Bool :=
  pyDictGet a "relationship_type" == some (.str "competes_with")

/-- The outgoing half of `get_competitors`: for each successor, append the
successor once per `competes_with` edge reaching it (the loop body runs per
edge and appends unconditionally). -/
def outgoingCompetitors (g : Graph) (company : String) : List String :=
  (successorsOf g company).flatMap (fun target =>
    (edgesBetween g company target).filterMap (fun a =>
      if isCompetesAttrs a then some target else none))

/-- The body of the inner loop of the incoming half of `get_competitors`:
on a `competes_with` edge from `source`, append `source` unless it is
already listed (`if source not in competitors`). -/
def innerStep (source : String) (acc2 : List String) (a : Attrs) : List String :=
  if isCompetesAttrs a = true ∧ source ∉ acc2 then acc2 ++ [source] else acc2

/-- The incoming half of `get_competitors`: for each predecessor and each
`competes_with` edge from it, append the predecessor only when it is not in
the list yet. -/
def incomingCompetitorsFold (g : Graph) (company : String) (acc : List String) : List String :=
  (predecessorsOf g company).foldl (fun acc source =>
    (edgesBetween g source company).foldl (innerStep source) acc) acc

/-- The list built by `get_competitors` when the node is present. -/
def competitorsList (g : Graph) (company : String) : List String :=
  incomingCompetitorsFold g company (outgoingCompetitors g company)

/-- `get_competitors(company)`.  `self.graph.successors(company)` raises
NetworkXError when `company` is not a node, and nothing catches it. -/
def get_competitors (kg : KG) (company : String) : Except String (List String) :=
  if hasNode kg.graph company then .ok (competitorsList kg.graph company)
  else .error (nodeNotInDigraph company)

/-- The `markets1` / `markets2` sets of `get_shared_markets`: successors
whose node `entity_type` attribute is `'market'`, as a Python set. -/
def marketsOf (g : Graph) (company : String) : Finset String :=
  ((successorsOf g company).filter (fun t =>
    pyDictGet (nodeAttrs g t) "entity_type" == some (.str "market"))).toFinset

/-- `get_shared_markets(company1, company2)`: the intersection of the two
market sets.  The Python code returns `list(markets1.intersection(markets2))`
whose element order is CPython set iteration order; the returned collection
is modelled as the `Finset`.  `successors(company1)` raises first when
`company1` is missing, then `successors(company2)`. -/
def get_shared_markets (kg : KG) (company1 company2 : String) : Except String (Finset String) :=
  if !(hasNode kg.graph company1) then .error (nodeNotInDigraph company1)
  else if !(hasNode kg.graph company2) then .error (nodeNotInDigraph company2)
  else .ok (marketsOf kg.graph company1 ∩ marketsOf kg.graph company2)

/-- The list built by `get_company_products` when the node is present:
successors whose `entity_type` is `'product'`. -/
def companyProductsList (g : Graph) (company : String) : List String :=
  (successorsOf g company).filter (fun t =>
    pyDictGet (nodeAttrs g t) "entity_type" == some (.str "product"))

/-- `get_company_products(company)`; raises via `successors` on a missing
node. -/
def get_company_products (kg : KG) (company : String) : Except String (List String) :=
  if hasNode kg.graph company then .ok (companyProductsList kg.graph company)
  else .error (nodeNotInDigraph company)

/-- The `overlapping_products` entries built by `find_competitive_threats`:
one entry `{user_product, competitor_product, category}` per product pair
with `user_attrs.get('category') == comp_attrs.get('category')` — note that
`None == None` holds in Python, so two products both LACKING a category
also match.  (The code iterates Python sets of the two product lists; the
lists are duplicate-free already and set iteration order is abstracted by
stating properties up to membership.) -/
def overlappingProducts (g : Graph) (user_company competitor : String) :
    List (String × String × Option PyVal) :=
  (companyProductsList g user_company).flatMap (fun user_prod =>
    (companyProductsList g competitor).filterMap (fun comp_prod =>
      if pyDictGet (nodeAttrs g user_prod) "category" = pyDictGet (nodeAttrs g comp_prod) "category"
      then some (user_prod, comp_prod, pyDictGet (nodeAttrs g user_prod) "category")
      else none))

/-- The dict returned by `find_competitive_threats`. -/
structure Threats where
  shared_markets : Finset String
  competitor_advantages : List String
  overlapping_products : List (String × String × Option PyVal)
  market_position : List (String × PyVal)
deriving DecidableEq

/-- `find_competitive_threats(user_company, competitor)`: shared markets,
an always-empty `competitor_advantages`, the category-matched product
overlaps, and the never-populated `market_position`.  It calls
`get_shared_markets(user_company, competitor)` first, so a missing
`user_company` raises before a missing `competitor`. -/
def find_competitive_threats (kg : KG) (user_company competitor : String) :
    Except String Threats :=
  if !(hasNode kg.graph user_company) then .error (nodeNotInDigraph user_company)
  else if !(hasNode kg.graph competitor) then .error (nodeNotInDigraph competitor)
  else .ok ⟨marketsOf kg.graph user_company ∩ marketsOf kg.graph competitor, [],
    overlappingProducts kg.graph user_company competitor, []⟩

/-- Python ASCII whitespace as removed by `str.strip()`. -/
def isPySpace (c : Char) : Bool :=
  c = ' ' || c = '\t' || c = '\n' || c = '\r' || c = '\x0b' || c = '\x0c'

/-- Python `s.strip()` on a character list. -/
def pyStripChars (s : List Char) : List Char :=
  ((s.dropWhile isPySpace).reverse.dropWhile isPySpace).reverse

/-- Python `s.strip()`. -/
def pyStrip (s : String) : String := String.mk (pyStripChars s.data)

/-- If `sep` is a leading segment of `s`, the characters after it. -/
def stripPre : List Char → List Char → Option (List Char)
  | [], s => some s
  | _ :: _, [] => Option.none
  | c :: cs, d :: ds => if c = d then stripPre cs ds else Option.none

theorem stripPre_length_le : ∀ {sep s r : List Char},
    stripPre sep s = some r → r.length ≤ s.length := by
  intro sep
  induction sep with
  | nil =>
    intro s r h
    simp only [stripPre, Option.some.injEq] at h
    exact h ▸ Nat.le_refl _
  | cons c cs ih =>
    intro s r h
    cases s with
    | nil => cases h
    | cons d ds =>
      simp only [stripPre] at h
      by_cases hcd : c = d
      · rw [if_pos hcd] at h
        exact Nat.le_trans (ih h) (Nat.le_succ _)
      · rw [if_neg hcd] at h
        cases h

theorem stripPre_length_lt {c : Char} {cs s r : List Char}
    (h : stripPre (c :: cs) s = some r) : r.length < s.length := by
  cases s with
  | nil => cases h
  | cons d ds =>
    simp only [stripPre] at h
    by_cases hcd : c = d
    · rw [if_pos hcd] at h
      exact Nat.lt_succ_of_le (stripPre_length_le h)
    · rw [if_neg hcd] at h
      cases h

/-- Python `s.split(sep)` on character lists (`sep` nonempty in every use):
scan left to right, cutting at each non-overlapping occurrence of `sep`;
a trailing separator yields a trailing empty group, and the empty string
yields one empty group. -/
def splitCharsAux (sep : List Char) : Nat → List Char → List (List Char)
  | _, [] => [[]]
  | 0, d :: ds => [d :: ds]
  | fuel + 1, d :: ds =>
    match stripPre sep (d :: ds) with
    | some r => [] :: splitCharsAux sep fuel r
    | Option.none =>
      match splitCharsAux sep fuel ds with
      | [] => [[d]]
      | grp :: grps => (d :: grp) :: grps

/-- The fuel `s.length` always suffices: a nonempty separator consumes at
least one character per cut, so the zero-fuel case is never reached. -/
def splitChars (sep s : List Char) : List (List Char) :=
  splitCharsAux sep s.length s

/-- Python `s.split(sep, 1)` on character lists: the part before the first
occurrence of `sep`, and the remainder after it, if any. -/
def splitOnceChars (sep : List Char) : List Char → List Char × Option (List Char)
  | [] => ([], Option.none)
  | d :: ds =>
    match stripPre sep (d :: ds) with
    | some r => ([], some r)
    | Option.none =>
      let p := splitOnceChars sep ds
      (d :: p.1, p.2)

/-- Python `s.startswith(pre)`. -/
def pyStartsWith (s pre : String) : Bool := (stripPre pre.data s.data).isSome

/-- Python `s[n:]`. -/
def pyDrop (s : String) (n : Nat) : String := String.mk (s.data.drop n)

/-- Python `s.split(sep)`. -/
def pySplit (s sep : String) : List String := (splitChars sep.data s.data).map String.mk

/-- Python `s.split(sep, 1)`: at most one split, at the first occurrence of
`sep`. -/
def pySplitOnce (s sep : String) : List String :=
  match splitOnceChars sep.data s.data with
  | (x, Option.none) => [String.mk x]
  | (x, some r) => [String.mk x, String.mk r]

/-- The per-line parse of the RELATIONSHIPS section of
`parse_entity_extraction`: require the `- ` bullet, strip it, require at
least two `->` separators (`'->' in line` and `len(parts) >= 3`), take the
first three segments as source, relationship type and target segment, and
split an optional `: description` off the target segment.  `none` means the
line is skipped. -/
def parseRelLine (line : String) : Option (String × String × String × Option String) :=
  if !(pyStartsWith line "- ") then Option.none
  else
    let rest := pyStrip (pyDrop line 2)
    match pySplit rest "->" with
    | p0 :: p1 :: p2 :: _ =>
      let source := pyStrip p0
      let rel_type := pyStrip p1
      let target_parts := pySplitOnce p2 ":"
      let target := pyStrip (target_parts.headD "")
      let description := match target_parts with
        | _ :: d :: _ => some (pyStrip d)
        | _ => Option.none
      some (source, rel_type, target, description)
    | _ => Option.none

/-- The edge attribute dict built from the optional description; Python
`if description:` is false both for `None` and for the empty string. -/
def descriptionAttrs (description : Option String) : Attrs :=
  match description with
  | some d => if d ≠ "" then [("description", .str d)] else []
  | Option.none => []

/-- One iteration of the RELATIONSHIPS loop of `parse_entity_extraction`:
parse the line; on success add the edge ONLY if both endpoints are already
nodes (`if source in self.graph and target in self.graph`), otherwise leave
the state untouched and move on. -/
def processRelationshipLine (kg : KG) (line : String) (now : String) : KG :=
  match parseRelLine line with
  | Option.none => kg
  | some (source, rel_type, target, description) =>
    if hasNode kg.graph source && hasNode kg.graph target then
      add_relationship kg source target rel_type (descriptionAttrs description) now
    else kg

/-- The RELATIONSHIPS section loop: process the buffered lines in order;
every line is handled totally, so a skipped line never stops the loop. -/
def processRelationshipsSection (kg : KG) (lines : List String) (now : String) : KG :=
  lines.foldl (fun kg line => processRelationshipLine kg line now) kg

/-- The `except` branch of the COMPANIES attribute parse (the key=value
fallback that runs when `eval('{' + attrs_str + '}')` raises): split on
commas; a token containing `=` stores a key/value pair, and any token
WITHOUT `=` stores the whole raw string under `description`. -/
def companyFallbackAttrs (attrs_str : String) : Attrs :=
  (pySplit attrs_str ",").foldl (fun attrs pair =>
    match pySplitOnce pair "=" with
    | [k, v] => pyDictSet attrs (pyStrip k) (.str (pyStrip v))
    | _ => pyDictSet attrs "description" (.str (pyStrip attrs_str))) []

/-! ### Concrete instances used as witnesses and counterexamples -/

/-- Two companies with TWO parallel `competes_with` edges A to B. -/
def kgTwoCompetes : KG :=
  add_relationship
    (add_relationship
      (add_company (add_company KG.empty "A" [] "t1") "B" [] "t2")
      "A" "B" "competes_with" [] "t3")
    "A" "B" "competes_with" [] "t4"

/-- A single company node named Acme. -/
def kgOneCompany : KG := add_company KG.empty "Acme" [] "t1"

/-- Acme added with a `revenue` attribute. -/
def kgAcmeRevenue : KG := add_company KG.empty "Acme" [("revenue", .str "100")] "t1"

/-- Acme re-added with only an `hq` attribute. -/
def kgAcmeReadded : KG := add_company kgAcmeRevenue "Acme" [("hq", .str "NYC")] "t2"

/-- Companies U and C, each producing one product that carries NO
`category` attribute. -/
def kgNoCategory : KG :=
  add_product
    (add_product
      (add_company (add_company KG.empty "U" [] "t1") "C" [] "t2")
      "P1" "U" [] "t3")
    "P2" "C" [] "t4"

/-- Acme and Globex both linked to the Cloud market by `operates_in`. -/
def kgCloud : KG :=
  add_relationship
    (add_relationship
      (add_market
        (add_company (add_company KG.empty "Acme" [] "t1") "Globex" [] "t2")
        "Cloud" [] "t3")
      "Acme" "Cloud" "operates_in" [] "t4")
    "Globex" "Cloud" "operates_in" [] "t5"

theorem pyDictGet_pyDictSet_self {α : Type} (d : PyDict α) (k : String) (v : α) :
    pyDictGet (pyDictSet d k v) k = some v := by
  induction d with
  | nil => simp [pyDictSet, pyDictGet, List.lookup]
  | cons p rest ih =>
    obtain ⟨k', v'⟩ := p
    by_cases h : k' = k
    · subst h
      simp [pyDictSet, pyDictGet, List.lookup]
    · have hb : (k' == k) = false := beq_eq_false_iff_ne.mpr h
      have hb2 : (k == k') = false := beq_eq_false_iff_ne.mpr (Ne.symm h)
      simpa [pyDictSet, pyDictGet, List.lookup, hb, hb2] using ih

theorem pyDictGet_pyDictSet_ne {α : Type} (d : PyDict α) (k k' : String) (v : α)
    (h : k' ≠ k) :
    pyDictGet (pyDictSet d k v) k' = pyDictGet d k' := by
  induction d with
  | nil =>
    have hb : (k' == k) = false := beq_eq_false_iff_ne.mpr h
    simp [pyDictSet, pyDictGet, List.lookup, hb]
  | cons p rest ih =>
    obtain ⟨a, b⟩ := p
    by_cases ha : a = k
    · subst ha
      have hb : (k' == a) = false := beq_eq_false_iff_ne.mpr h
      simp [pyDictSet, pyDictGet, List.lookup, hb]
    · have hab : (a == k) = false := beq_eq_false_iff_ne.mpr ha
      by_cases hka : k' = a
      · subst hka
        simp [pyDictSet, pyDictGet, List.lookup, hab]
      · have hkb : (k' == a) = false := beq_eq_false_iff_ne.mpr hka
        simpa [pyDictSet, pyDictGet, List.lookup, hab, hkb] using ih

theorem pyDictGet_pyDictUpdate_none {α : Type} (d new : PyDict α) (k : String)
    (h : pyDictGet new k = none) :
    pyDictGet (pyDictUpdate d new) k = pyDictGet d k := by
  induction new generalizing d with
  | nil => rfl
  | cons p rest ih =>
    obtain ⟨k', v'⟩ := p
    have hk : k ≠ k' := by
      intro hh
      subst hh
      simp [pyDictGet, List.lookup] at h
    have hb : (k == k') = false := beq_eq_false_iff_ne.mpr hk
    have hrest : pyDictGet rest k = none := by
      simpa [pyDictGet, List.lookup, hb] using h
    calc pyDictGet (pyDictUpdate d ((k', v') :: rest)) k
        = pyDictGet (pyDictUpdate (pyDictSet d k' v') rest) k := rfl
      _ = pyDictGet (pyDictSet d k' v') k := ih _ hrest
      _ = pyDictGet d k := pyDictGet_pyDictSet_ne d k' k v' hk

/-! ### Basic graph operation lemmas -/

theorem ensureNode_edges (g : Graph) (n : String) : (g.ensureNode n).edges = g.edges := by
  unfold Graph.ensureNode
  split <;> rfl

theorem addEdge_edges (g : Graph) (u v : String) (a : Attrs) :
    (g.addEdge u v a).edges = g.edges ++ [⟨u, v, a⟩] := by
  unfold Graph.addEdge
  simp [ensureNode_edges]

theorem addNode_edges (g : Graph) (n : String) (a : Attrs) :
    (g.addNode n a).edges = g.edges := by
  unfold Graph.addNode
  split <;> rfl

theorem edgesBetween_addEdge_same (g : Graph) (u v : String) (a : Attrs) :
    edgesBetween (g.addEdge u v a) u v = edgesBetween g u v ++ [a] := by
  unfold edgesBetween
  rw [addEdge_edges]
  simp

theorem totalEdges_addEdge (g : Graph) (u v : String) (a : Attrs) :
    totalEdges (g.addEdge u v a) = totalEdges g + 1 := by
  unfold totalEdges
  rw [addEdge_edges]
  simp

theorem add_relationship_graph (kg : KG) (s t ty : String) (a : Attrs) (now : String) :
    (add_relationship kg s t ty a now).graph
      = kg.graph.addEdge s t (stampedRelAttrs ty a now) := rfl

theorem totalEdges_add_relationship (kg : KG) (s t ty : String) (a : Attrs) (now : String) :
    totalEdges (add_relationship kg s t ty a now).graph = totalEdges kg.graph + 1 := by
  rw [add_relationship_graph, totalEdges_addEdge]

/-! ### Membership lemmas for the traversal primitives -/

theorem mem_firstDedup (l : List String) (x : String) :
    x ∈ firstDedup l ↔ x ∈ l := by
  induction l with
  | nil => simp [firstDedup]
  | cons a l ih =>
    rw [firstDedup]
    simp only [List.mem_cons, List.mem_filter, bne_iff_ne]
    constructor
    · rintro (rfl | ⟨h, _⟩)
      · exact Or.inl rfl
      · exact Or.inr (ih.mp h)
    · rintro (rfl | h)
      · exact Or.inl rfl
      · by_cases hxa : x = a
        · exact Or.inl hxa
        · exact Or.inr ⟨ih.mpr h, by simpa using hxa⟩

theorem mem_successorsOf {g : Graph} {n v : String} :
    v ∈ successorsOf g n ↔ hasEdge g n v = true := by
  unfold successorsOf hasEdge
  rw [mem_firstDedup]
  simp only [List.mem_map, List.mem_filter, List.any_eq_true, Bool.and_eq_true, beq_iff_eq]
  constructor
  · rintro ⟨e, ⟨he, hs⟩, ht⟩
    exact ⟨e, he, hs, ht⟩
  · rintro ⟨e, he, hs, ht⟩
    exact ⟨e, ⟨he, hs⟩, ht⟩

theorem mem_predecessorsOf {g : Graph} {n u : String} :
    u ∈ predecessorsOf g n ↔ hasEdge g u n = true := by
  unfold predecessorsOf hasEdge
  rw [mem_firstDedup]
  simp only [List.mem_map, List.mem_filter, List.any_eq_true, Bool.and_eq_true, beq_iff_eq]
  constructor
  · rintro ⟨e, ⟨he, ht⟩, hs⟩
    exact ⟨e, he, hs, ht⟩
  · rintro ⟨e, he, hs, ht⟩
    exact ⟨e, ⟨he, ht⟩, hs⟩

theorem mem_edgesBetween {g : Graph} {u v : String} {a : Attrs} :
    a ∈ edgesBetween g u v ↔ ∃ e ∈ g.edges, e.source = u ∧ e.target = v ∧ e.attrs = a := by
  unfold edgesBetween
  simp only [List.mem_map, List.mem_filter, Bool.and_eq_true, beq_iff_eq]
  constructor
  · rintro ⟨e, ⟨he, hs, ht⟩, ha⟩
    exact ⟨e, he, hs, ht, ha⟩
  · rintro ⟨e, he, hs, ht, ha⟩
    exact ⟨e, ⟨he, hs, ht⟩, ha⟩

theorem hasEdge_iff {g : Graph} {u v : String} :
    hasEdge g u v = true ↔ ∃ e ∈ g.edges, e.source = u ∧ e.target = v := by
  unfold hasEdge
  simp [List.any_eq_true]

theorem hasNode_of_hasEdge_left {g : Graph} (hw : g.Wf) {u v : String}
    (h : hasEdge g u v = true) : hasNode g u = true := by
  obtain ⟨e, he, hs, _⟩ := hasEdge_iff.mp h
  exact hs ▸ (hw e he).1

theorem hasNode_eq_lookup_isSome (g : Graph) (n : String) :
    hasNode g n = (List.lookup n g.nodes).isSome := by
  unfold hasNode
  induction g.nodes with
  | nil => rfl
  | cons p rest ih =>
    obtain ⟨k, d⟩ := p
    by_cases hk : k = n
    · subst hk
      simp [List.lookup]
    · have hb : (k == n) = false := beq_eq_false_iff_ne.mpr hk
      have hb2 : (n == k) = false := beq_eq_false_iff_ne.mpr (Ne.symm hk)
      simpa [List.lookup, hb, hb2] using ih

theorem lookup_append_of_none {α : Type} (l1 l2 : PyDict α) (n : String)
    (h : List.lookup n l1 = none) :
    List.lookup n (l1 ++ l2) = List.lookup n l2 := by
  induction l1 with
  | nil => rfl
  | cons p rest ih =>
    obtain ⟨k, d⟩ := p
    by_cases hk : n = k
    · subst hk
      simp [List.lookup] at h
    · have hb : (n == k) = false := beq_eq_false_iff_ne.mpr hk
      have hrest : List.lookup n rest = none := by
        simpa [List.lookup, hb] using h
      simpa [List.lookup, hb] using ih hrest

theorem lookup_map_update (nodes : PyDict Attrs) (n : String) (a : Attrs) :
    List.lookup n (nodes.map (fun p => if p.1 == n then (p.1, pyDictUpdate p.2 a) else p))
      = (List.lookup n nodes).map (fun d => pyDictUpdate d a) := by
  induction nodes with
  | nil => rfl
  | cons p rest ih =>
    obtain ⟨k, d⟩ := p
    rw [List.map_cons]
    by_cases hk : k = n
    · subst hk
      rw [if_pos (beq_self_eq_true k)]
      simp [List.lookup]
    · have hb : (k == n) = false := beq_eq_false_iff_ne.mpr hk
      have hb2 : (n == k) = false := beq_eq_false_iff_ne.mpr (Ne.symm hk)
      rw [if_neg (by rw [hb]; exact Bool.false_ne_true)]
      simpa [List.lookup, hb2] using ih

theorem nodeAttrs_addNode_present (g : Graph) (n : String) (a : Attrs)
    (h : hasNode g n = true) :
    nodeAttrs (g.addNode n a) n = pyDictUpdate (nodeAttrs g n) a := by
  unfold Graph.addNode nodeAttrs pyDictGet
  rw [if_pos h]
  simp only []
  rw [lookup_map_update]
  have hsome : (List.lookup n g.nodes).isSome = true := by
    rw [← hasNode_eq_lookup_isSome]; exact h
  obtain ⟨d, hd⟩ := Option.isSome_iff_exists.mp hsome
  rw [hd]
  rfl

theorem addNode_keys_present (g : Graph) (n : String) (a : Attrs)
    (h : hasNode g n = true) :
    (g.addNode n a).nodes.map Prod.fst = g.nodes.map Prod.fst := by
  unfold Graph.addNode
  rw [if_pos h]
  simp only [List.map_map]
  congr 1
  funext p
  simp only [Function.comp_apply]
  by_cases hp : (p.1 == n) = true
  · rw [if_pos hp]
  · rw [if_neg hp]

/-! ### Fold lemmas for `get_competitors` -/

theorem foldl_subset_of_step_subset {α : Type} {f : List String → α → List String}
    (hf : ∀ acc x, acc ⊆ f acc x) :
    ∀ (l : List α) (acc : List String), acc ⊆ l.foldl f acc := by
  intro l
  induction l with
  | nil => exact fun _ => List.Subset.refl _
  | cons a l ih => exact fun acc => List.Subset.trans (hf acc a) (ih (f acc a))

theorem foldl_mem_of_hit {f : List String → String → List String}
    (hf : ∀ acc x, acc ⊆ f acc x) {x : String} :
    ∀ (l : List String), x ∈ l → (∀ acc, x ∈ f acc x) →
      ∀ acc, x ∈ l.foldl f acc := by
  intro l
  induction l with
  | nil => intro hx; cases hx
  | cons a l ih =>
    intro hx hhit acc
    rcases List.mem_cons.mp hx with rfl | h
    · exact foldl_subset_of_step_subset hf l (f acc x) (hhit acc)
    · exact ih h hhit (f acc a)

theorem foldl_append_decomp {α : Type} {f : List String → α → List String}
    (hf : ∀ acc x, ∃ d, f acc x = acc ++ d) :
    ∀ (l : List α) (acc : List String), ∃ r, l.foldl f acc = acc ++ r := by
  intro l
  induction l with
  | nil => exact fun acc => ⟨[], by simp⟩
  | cons a l ih =>
    intro acc
    obtain ⟨d, hd⟩ := hf acc a
    obtain ⟨r, hr⟩ := ih (f acc a)
    refine ⟨d ++ r, ?_⟩
    rw [List.foldl_cons, hr, hd, List.append_assoc]

theorem innerStep_subset (source : String) (acc2 : List String) (a : Attrs) :
    acc2 ⊆ innerStep source acc2 a := by
  unfold innerStep
  split
  · exact List.subset_append_left _ _
  · exact List.Subset.refl _

theorem innerStep_decomp (source : String) (acc2 : List String) (a : Attrs) :
    ∃ d, innerStep source acc2 a = acc2 ++ d := by
  unfold innerStep
  split
  · exact ⟨[source], rfl⟩
  · exact ⟨[], by simp⟩

theorem innerStep_self_mem (source : String) (acc2 : List String) (a : Attrs)
    (hc : isCompetesAttrs a = true) : source ∈ innerStep source acc2 a := by
  unfold innerStep
  by_cases hs : source ∈ acc2
  · rw [if_neg (fun hcc => hcc.2 hs)]
    exact hs
  · rw [if_pos ⟨hc, hs⟩]
    exact List.mem_append_right _ (List.mem_singleton_self source)

theorem innerFold_subset (source : String) :
    ∀ (edges : List Attrs) (acc : List String),
      acc ⊆ edges.foldl (innerStep source) acc :=
  fun edges acc => foldl_subset_of_step_subset (innerStep_subset source) edges acc

theorem innerFold_mem (source : String) :
    ∀ (edges : List Attrs), (∃ a ∈ edges, isCompetesAttrs a = true) →
      ∀ acc, source ∈ edges.foldl (innerStep source) acc := by
  intro edges
  induction edges with
  | nil =>
    rintro ⟨a, ha, _⟩
    cases ha
  | cons a rest ih =>
    rintro ⟨a', ha', hc'⟩ acc
    rw [List.foldl_cons]
    by_cases hca : isCompetesAttrs a = true
    · exact innerFold_subset source rest _ (innerStep_self_mem source acc a hca)
    · have hstep : innerStep source acc a = acc := by
        unfold innerStep
        rw [if_neg (fun hcc => hca hcc.1)]
      rw [hstep]
      rcases List.mem_cons.mp ha' with rfl | hmem
      · exact absurd hc' hca
      · exact ih ⟨a', hmem, hc'⟩ acc

theorem mem_incomingCompetitorsFold_of_edge {g : Graph} {c s : String}
    (hpred : s ∈ predecessorsOf g c)
    (hedge : ∃ a ∈ edgesBetween g s c, isCompetesAttrs a = true)
    (acc : List String) :
    s ∈ incomingCompetitorsFold g c acc := by
  unfold incomingCompetitorsFold
  refine foldl_mem_of_hit (fun acc x => innerFold_subset x _ acc) _ hpred ?_ acc
  intro acc2
  exact innerFold_mem s _ hedge acc2

theorem incomingCompetitorsFold_subset (g : Graph) (c : String) (acc : List String) :
    acc ⊆ incomingCompetitorsFold g c acc := by
  unfold incomingCompetitorsFold
  exact foldl_subset_of_step_subset (fun acc x => innerFold_subset x _ acc) _ acc

theorem competitorsList_decomp (g : Graph) (c : String) :
    ∃ r, competitorsList g c = outgoingCompetitors g c ++ r := by
  unfold competitorsList incomingCompetitorsFold
  exact foldl_append_decomp
    (fun acc x => foldl_append_decomp (innerStep_decomp x) _ acc) _ _

theorem mem_outgoingCompetitors_of_edge {g : Graph} {A B : String} {e : Edge}
    (he : e ∈ g.edges) (hs : e.source = A) (ht : e.target = B)
    (hrel : isCompetesAttrs e.attrs = true) :
    B ∈ outgoingCompetitors g A := by
  unfold outgoingCompetitors
  rw [List.mem_flatMap]
  refine ⟨B, mem_successorsOf.mpr (hasEdge_iff.mpr ⟨e, he, hs, ht⟩), ?_⟩
  rw [List.mem_filterMap]
  refine ⟨e.attrs, mem_edgesBetween.mpr ⟨e, he, hs, ht, rfl⟩, ?_⟩
  rw [if_pos hrel]

/-! ### List helpers for the path characterisation -/

theorem lookup_none_of_hasNode_false (g : Graph) (n : String) (h : hasNode g n = false) :
    List.lookup n g.nodes = none := by
  have hiso := hasNode_eq_lookup_isSome g n
  rw [h] at hiso
  cases hfind : List.lookup n g.nodes with
  | none => rfl
  | some d =>
    rw [hfind] at hiso
    cases hiso

theorem lookup_append_singleton_ne {α : Type} (l : PyDict α) (n m : String) (x : α)
    (h : n ≠ m) : List.lookup n (l ++ [(m, x)]) = List.lookup n l := by
  induction l with
  | nil => simp [List.lookup, beq_eq_false_iff_ne.mpr h]
  | cons p rest ih =>
    obtain ⟨k, v⟩ := p
    rw [List.cons_append]
    cases hnk : (n == k) <;> simp [List.lookup, hnk, ih]

theorem ensureNode_present (g : Graph) (n : String) (h : hasNode g n = true) :
    g.ensureNode n = g := by
  unfold Graph.ensureNode
  rw [if_pos h]

theorem ensureNode_absent_nodes (g : Graph) (n : String) (h : hasNode g n = false) :
    (g.ensureNode n).nodes = g.nodes ++ [(n, [])] := by
  unfold Graph.ensureNode
  rw [if_neg (by rw [h]; simp)]

theorem hasNode_ensureNode_self (g : Graph) (n : String) :
    hasNode (g.ensureNode n) n = true := by
  by_cases hc : hasNode g n = true
  · rw [ensureNode_present g n hc]
    exact hc
  · unfold Graph.ensureNode
    rw [if_neg hc]
    unfold hasNode
    rw [List.any_append]
    simp

theorem hasNode_ensureNode_mono (g : Graph) (n m : String) (h : hasNode g m = true) :
    hasNode (g.ensureNode n) m = true := by
  unfold Graph.ensureNode
  split
  · exact h
  · unfold hasNode at h ⊢
    rw [List.any_append, h]
    rfl

theorem hasNode_ensureNode_ne (g : Graph) (n m : String) (hnm : m ≠ n) :
    hasNode (g.ensureNode n) m = hasNode g m := by
  unfold Graph.ensureNode
  split
  · rfl
  · unfold hasNode
    rw [List.any_append]
    simp [beq_eq_false_iff_ne.mpr (Ne.symm hnm)]

theorem nodeAttrs_ensureNode_absent (g : Graph) (n : String) (h : hasNode g n = false) :
    nodeAttrs (g.ensureNode n) n = [] := by
  unfold nodeAttrs pyDictGet
  rw [ensureNode_absent_nodes g n h,
    lookup_append_of_none _ _ _ (lookup_none_of_hasNode_false g n h)]
  simp [List.lookup]

theorem nodeAttrs_ensureNode_ne (g : Graph) (n m : String) (hnm : m ≠ n) :
    nodeAttrs (g.ensureNode n) m = nodeAttrs g m := by
  unfold Graph.ensureNode
  split
  · rfl
  · unfold nodeAttrs pyDictGet
    rw [lookup_append_singleton_ne _ _ _ _ hnm]

theorem totalNodes_ensureNode (g : Graph) (n : String) :
    totalNodes (g.ensureNode n) = totalNodes g + (if hasNode g n = false then 1 else 0) := by
  cases hc : hasNode g n with
  | false =>
    unfold totalNodes
    rw [ensureNode_absent_nodes g n hc]
    simp [hc]
  | true =>
    rw [ensureNode_present g n hc]
    simp [hc]

theorem countEntityType_ensureNode (g : Graph) (n ty : String) :
    countEntityType (g.ensureNode n) ty = countEntityType g ty := by
  unfold Graph.ensureNode
  split
  · rfl
  · unfold countEntityType
    rw [List.filter_append]
    simp [pyDictGet, List.lookup]

theorem hasNode_mk_nodes (g : Graph) (E : List Edge) (x : String) :
    hasNode (Graph.mk g.nodes E) x = hasNode g x := rfl

theorem nodeAttrs_mk_nodes (g : Graph) (E : List Edge) (x : String) :
    nodeAttrs (Graph.mk g.nodes E) x = nodeAttrs g x := rfl

theorem totalNodes_mk_nodes (g : Graph) (E : List Edge) :
    totalNodes (Graph.mk g.nodes E) = totalNodes g := rfl

theorem countEntityType_mk_nodes (g : Graph) (E : List Edge) (ty : String) :
    countEntityType (Graph.mk g.nodes E) ty = countEntityType g ty := rfl

/-! ### Claim theorems -/

/-- Claim C1 (code divergence): the key=value fallback branch of the
COMPANIES attribute parse (which in the code only runs AFTER
`eval('{' + attrs_str + '}')` has been tried and has raised) does NOT
implement the claimed rule that the remainder becomes a `description` only
when zero key=value pairs were found: on `"founded=1999, startup"` it
extracts the pair `founded=1999` AND also stores the whole string under
`description`, because `description` is written once per comma token
lacking an equals sign. -/
theorem c1_fallback_divergence :
    companyFallbackAttrs "founded=1999, startup"
      = [("founded", .str "1999"), ("description", .str "founded=1999, startup")] := by
  decide

/-- Claim C6: two `add_relationship` calls on the same ordered pair with
different relationship types append two distinct edges — the stored pair
list grows by exactly the two stamped attribute dicts in call order, each
retrievable with its own `relationship_type`, and the edge count rises by
one per call. -/
theorem c6_multi_edge (kg : KG) (s t ty1 ty2 : String) (a1 a2 : Attrs) (n1 n2 : String)
    (hty : ty1 ≠ ty2) :
    edgesBetween (add_relationship (add_relationship kg s t ty1 a1 n1) s t ty2 a2 n2).graph s t
      = edgesBetween kg.graph s t ++ [stampedRelAttrs ty1 a1 n1, stampedRelAttrs ty2 a2 n2] ∧
    pyDictGet (stampedRelAttrs ty1 a1 n1) "relationship_type" = some (.str ty1) ∧
    pyDictGet (stampedRelAttrs ty2 a2 n2) "relationship_type" = some (.str ty2) ∧
    stampedRelAttrs ty1 a1 n1 ≠ stampedRelAttrs ty2 a2 n2 ∧
    totalEdges (add_relationship kg s t ty1 a1 n1).graph = totalEdges kg.graph + 1 ∧
    totalEdges (add_relationship (add_relationship kg s t ty1 a1 n1) s t ty2 a2 n2).graph
      = totalEdges kg.graph + 2 := by
  have hget : ∀ ty a n, pyDictGet (stampedRelAttrs ty a n) "relationship_type"
      = some (PyVal.str ty) := by
    intro ty a n
    unfold stampedRelAttrs
    rw [pyDictGet_pyDictSet_ne _ _ _ _ (by decide)]
    exact pyDictGet_pyDictSet_self _ _ _
  refine ⟨?_, hget ty1 a1 n1, hget ty2 a2 n2, ?_, ?_, ?_⟩
  · rw [add_relationship_graph, add_relationship_graph, edgesBetween_addEdge_same,
      edgesBetween_addEdge_same, List.append_assoc]
    rfl
  · intro heq
    have := (hget ty1 a1 n1).symm.trans (heq ▸ hget ty2 a2 n2)
    simp only [Option.some.injEq, PyVal.str.injEq] at this
    exact hty this
  · exact totalEdges_add_relationship kg s t ty1 a1 n1
  · rw [totalEdges_add_relationship, totalEdges_add_relationship]

/-- Witness for C6: adding `competes_with` and then `partners_with` on the
pair (A, B) of the empty graph. -/
theorem c6_multi_edge_witness :
    edgesBetween (add_relationship (add_relationship KG.empty "A" "B" "competes_with" [] "t1")
        "A" "B" "partners_with" [] "t2").graph "A" "B"
      = edgesBetween KG.empty.graph "A" "B"
        ++ [stampedRelAttrs "competes_with" [] "t1", stampedRelAttrs "partners_with" [] "t2"] ∧
    pyDictGet (stampedRelAttrs "competes_with" [] "t1") "relationship_type"
      = some (.str "competes_with") ∧
    pyDictGet (stampedRelAttrs "partners_with" [] "t2") "relationship_type"
      = some (.str "partners_with") ∧
    stampedRelAttrs "competes_with" [] "t1" ≠ stampedRelAttrs "partners_with" [] "t2" ∧
    totalEdges (add_relationship KG.empty "A" "B" "competes_with" [] "t1").graph
      = totalEdges KG.empty.graph + 1 ∧
    totalEdges (add_relationship (add_relationship KG.empty "A" "B" "competes_with" [] "t1")
        "A" "B" "partners_with" [] "t2").graph
      = totalEdges KG.empty.graph + 2 :=
  c6_multi_edge KG.empty "A" "B" "competes_with" "partners_with" [] [] "t1" "t2" (by decide)

/-- Claim C7, counterexample: re-adding Acme with a fresh attribute dict
does NOT replace its node attribute set — the old `revenue` key survives
next to the newly supplied `hq` key, because `networkx.add_node` merges. -/
theorem c7_counterexample :
    pyDictGet (nodeAttrs kgAcmeReadded.graph "Acme") "revenue" = some (.str "100") ∧
    pyDictGet (nodeAttrs kgAcmeReadded.graph "Acme") "hq" = some (.str "NYC") := by
  constructor <;> rfl

/-- Claim C7, amended: calling `add_company` on an existing name MERGES
the stamped new attributes into the node's stored dict (a key absent from
the new dict keeps its old value), and leaves the edge list and the node
name sequence unchanged. -/
theorem c7_amended (kg : KG) (name : String) (attrs : Attrs) (now : String)
    (h : hasNode kg.graph name = true) :
    nodeAttrs (add_company kg name attrs now).graph name
      = pyDictUpdate (nodeAttrs kg.graph name) (stampedCompanyAttrs attrs now) ∧
    (add_company kg name attrs now).graph.edges = kg.graph.edges ∧
    (add_company kg name attrs now).graph.nodes.map Prod.fst = kg.graph.nodes.map Prod.fst ∧
    (∀ key : String, pyDictGet (stampedCompanyAttrs attrs now) key = none →
      pyDictGet (nodeAttrs (add_company kg name attrs now).graph name) key
        = pyDictGet (nodeAttrs kg.graph name) key) := by
  have hmain : nodeAttrs (add_company kg name attrs now).graph name
      = pyDictUpdate (nodeAttrs kg.graph name) (stampedCompanyAttrs attrs now) :=
    nodeAttrs_addNode_present kg.graph name (stampedCompanyAttrs attrs now) h
  refine ⟨hmain, addNode_edges kg.graph name _, addNode_keys_present kg.graph name _ h, ?_⟩
  intro key hkey
  rw [hmain]
  exact pyDictGet_pyDictUpdate_none _ _ key hkey

/-- Witness for C7: re-adding Acme over `kgAcmeRevenue`. -/
theorem c7_amended_witness :
    nodeAttrs (add_company kgAcmeRevenue "Acme" [("hq", .str "NYC")] "t2").graph "Acme"
      = pyDictUpdate (nodeAttrs kgAcmeRevenue.graph "Acme")
          (stampedCompanyAttrs [("hq", .str "NYC")] "t2") ∧
    (add_company kgAcmeRevenue "Acme" [("hq", .str "NYC")] "t2").graph.edges
      = kgAcmeRevenue.graph.edges ∧
    (add_company kgAcmeRevenue "Acme" [("hq", .str "NYC")] "t2").graph.nodes.map Prod.fst
      = kgAcmeRevenue.graph.nodes.map Prod.fst ∧
    (∀ key : String, pyDictGet (stampedCompanyAttrs [("hq", .str "NYC")] "t2") key = none →
      pyDictGet (nodeAttrs (add_company kgAcmeRevenue "Acme" [("hq", .str "NYC")] "t2").graph
          "Acme") key
        = pyDictGet (nodeAttrs kgAcmeRevenue.graph "Acme") key) :=
  c7_amended kgAcmeRevenue "Acme" [("hq", .str "NYC")] "t2" (by decide)

/-- Claim C3, counterexample: products P1 and P2 carry NO `category`
attribute, yet `find_competitive_threats` records the pair as an
overlapping product (with category `None`), because Python's
`None == None` makes two absent categories match. -/
theorem c3_counterexample :
    (find_competitive_threats kgNoCategory "U" "C").map Threats.overlapping_products
      = .ok [("P1", "P2", none)] ∧
    pyDictGet (nodeAttrs kgNoCategory.graph "P1") "category" = none ∧
    pyDictGet (nodeAttrs kgNoCategory.graph "P2") "category" = none := by
  refine ⟨by decide, by decide, by decide⟩

/-- Claim C3, amended: for present companies, `find_competitive_threats`
records an `overlapping_products` entry for `(u, c)` exactly when `u` and
`c` are products of the respective companies and their `category` LOOKUPS
agree — either both present with the same value, or both absent (the
Python `None == None` case); the recorded category is that shared lookup. -/
theorem c3_overlap_membership (kg : KG) (U C u c : String) (k : Option PyVal)
    (hU : hasNode kg.graph U = true) (hC : hasNode kg.graph C = true) :
    ∃ th : Threats, find_competitive_threats kg U C = .ok th ∧
      ((u, c, k) ∈ th.overlapping_products ↔
        u ∈ companyProductsList kg.graph U ∧ c ∈ companyProductsList kg.graph C ∧
        pyDictGet (nodeAttrs kg.graph u) "category"
          = pyDictGet (nodeAttrs kg.graph c) "category" ∧
        k = pyDictGet (nodeAttrs kg.graph u) "category") := by
  refine ⟨⟨marketsOf kg.graph U ∩ marketsOf kg.graph C, [],
    overlappingProducts kg.graph U C, []⟩, ?_, ?_⟩
  · unfold find_competitive_threats
    rw [if_neg (by rw [hU]; simp), if_neg (by rw [hC]; simp)]
  · show (u, c, k) ∈ overlappingProducts kg.graph U C ↔ _
    unfold overlappingProducts
    rw [List.mem_flatMap]
    constructor
    · rintro ⟨u', hu', hmem⟩
      rw [List.mem_filterMap] at hmem
      obtain ⟨c', hc', heq⟩ := hmem
      by_cases hcat : pyDictGet (nodeAttrs kg.graph u') "category"
          = pyDictGet (nodeAttrs kg.graph c') "category"
      · rw [if_pos hcat] at heq
        have h1 : u' = u ∧ c' = c ∧ pyDictGet (nodeAttrs kg.graph u') "category" = k := by
          simpa [Prod.ext_iff] using heq
        obtain ⟨rfl, rfl, hk⟩ := h1
        exact ⟨hu', hc', hcat, hk.symm⟩
      · rw [if_neg hcat] at heq
        cases heq
    · rintro ⟨hu, hc, hcat, rfl⟩
      refine ⟨u, hu, ?_⟩
      rw [List.mem_filterMap]
      refine ⟨c, hc, ?_⟩
      rw [if_pos hcat]

/-- Witness for C3: the overlap membership characterisation instantiated
on `kgNoCategory` at the recorded pair (P1, P2, None). -/
theorem c3_overlap_membership_witness :
    ∃ th : Threats, find_competitive_threats kgNoCategory "U" "C" = .ok th ∧
      (("P1", "P2", (none : Option PyVal)) ∈ th.overlapping_products ↔
        "P1" ∈ companyProductsList kgNoCategory.graph "U" ∧
        "P2" ∈ companyProductsList kgNoCategory.graph "C" ∧
        pyDictGet (nodeAttrs kgNoCategory.graph "P1") "category"
          = pyDictGet (nodeAttrs kgNoCategory.graph "P2") "category" ∧
        (none : Option PyVal) = pyDictGet (nodeAttrs kgNoCategory.graph "P1") "category") :=
  c3_overlap_membership kgNoCategory "U" "C" "P1" "P2" none (by decide) (by decide)

/-- Claim C4, counterexample: two parallel `competes_with` edges A to B
make `get_competitors("A")` return `["B", "B"]` — the outgoing loop appends
the target once per edge with no deduplication, so the returned list DOES
contain a duplicate name. -/
theorem c4_counterexample :
    get_competitors kgTwoCompetes "A" = .ok ["B", "B"] ∧
    ¬ (["B", "B"] : List String).Nodup := by
  exact ⟨by decide, by decide⟩

/-- Claim C4, amended: if a `competes_with` edge A to B exists between
nodes of the graph, then B is in `get_competitors(A)` and A is in
`get_competitors(B)`, and every returned list is the outgoing-discovery
list followed by the (deduplicated-against-the-list) incoming discoveries;
only incoming discoveries are deduplicated, so parallel outgoing
`competes_with` edges repeat their target. -/
theorem c4_competitor_symmetry (kg : KG) (A B : String) (e : Edge)
    (he : e ∈ kg.graph.edges) (hs : e.source = A) (ht : e.target = B)
    (hrel : isCompetesAttrs e.attrs = true)
    (hA : hasNode kg.graph A = true) (hB : hasNode kg.graph B = true) :
    (∃ lA, get_competitors kg A = .ok lA ∧ B ∈ lA ∧
      ∃ r, lA = outgoingCompetitors kg.graph A ++ r) ∧
    (∃ lB, get_competitors kg B = .ok lB ∧ A ∈ lB) := by
  constructor
  · refine ⟨competitorsList kg.graph A, ?_, ?_, competitorsList_decomp kg.graph A⟩
    · unfold get_competitors
      rw [if_pos hA]
    · exact incomingCompetitorsFold_subset kg.graph A _
        (mem_outgoingCompetitors_of_edge he hs ht hrel)
  · refine ⟨competitorsList kg.graph B, ?_, ?_⟩
    · unfold get_competitors
      rw [if_pos hB]
    · unfold competitorsList
      refine mem_incomingCompetitorsFold_of_edge ?_ ?_ _
      · exact mem_predecessorsOf.mpr (hasEdge_iff.mpr ⟨e, he, hs, ht⟩)
      · exact ⟨e.attrs, mem_edgesBetween.mpr ⟨e, he, hs, ht, rfl⟩, hrel⟩

/-- Witness for C4: the first `competes_with` edge of `kgTwoCompetes`. -/
theorem c4_competitor_symmetry_witness :
    (∃ lA, get_competitors kgTwoCompetes "A" = .ok lA ∧ "B" ∈ lA ∧
      ∃ r, lA = outgoingCompetitors kgTwoCompetes.graph "A" ++ r) ∧
    (∃ lB, get_competitors kgTwoCompetes "B" = .ok lB ∧ "A" ∈ lB) :=
  c4_competitor_symmetry kgTwoCompetes "A" "B"
    ⟨"A", "B", stampedRelAttrs "competes_with" [] "t3"⟩
    (by decide) rfl rfl (by decide) (by decide) (by decide)

/-- Claim C8: a well-formed RELATIONSHIPS bullet line is turned into an
edge ONLY when both parsed endpoints are already nodes; with either
endpoint absent the state is returned untouched (no edge, no history, no
error), and with both present exactly one edge is added, carrying the
parsed type and optional description. -/
theorem c8_endpoint_enforcement (kg : KG) (line now source rel_type target : String)
    (description : Option String)
    (hp : parseRelLine line = some (source, rel_type, target, description)) :
    (¬ (hasNode kg.graph source = true ∧ hasNode kg.graph target = true) →
       processRelationshipLine kg line now = kg) ∧
    (hasNode kg.graph source = true ∧ hasNode kg.graph target = true →
       processRelationshipLine kg line now
         = add_relationship kg source target rel_type (descriptionAttrs description) now ∧
       totalEdges (processRelationshipLine kg line now).graph = totalEdges kg.graph + 1) := by
  have hstep : processRelationshipLine kg line now =
      if (hasNode kg.graph source && hasNode kg.graph target) = true then
        add_relationship kg source target rel_type (descriptionAttrs description) now
      else kg := by
    unfold processRelationshipLine
    rw [hp]
  constructor
  · intro h
    have hcond : ¬ ((hasNode kg.graph source && hasNode kg.graph target) = true) := by
      rw [Bool.and_eq_true]
      exact h
    rw [hstep, if_neg hcond]
  · rintro ⟨h1, h2⟩
    have hcond : (hasNode kg.graph source && hasNode kg.graph target) = true := by
      rw [h1, h2]
      rfl
    constructor
    · rw [hstep, if_pos hcond]
    · rw [hstep, if_pos hcond]
      exact totalEdges_add_relationship kg source target rel_type _ now

/-- Witness for C8: the line naming the absent target Initech over a graph
holding only Acme leaves the state untouched; the hypotheses are
discharged on the concrete parse. -/
theorem c8_endpoint_enforcement_witness :
    (¬ (hasNode kgOneCompany.graph "Acme" = true ∧ hasNode kgOneCompany.graph "Initech" = true) →
       processRelationshipLine kgOneCompany "- Acme -> partners_with -> Initech: joint venture" "t9"
         = kgOneCompany) ∧
    (hasNode kgOneCompany.graph "Acme" = true ∧ hasNode kgOneCompany.graph "Initech" = true →
       processRelationshipLine kgOneCompany "- Acme -> partners_with -> Initech: joint venture" "t9"
         = add_relationship kgOneCompany "Acme" "Initech" "partners_with"
             (descriptionAttrs (some "joint venture")) "t9" ∧
       totalEdges (processRelationshipLine kgOneCompany
           "- Acme -> partners_with -> Initech: joint venture" "t9").graph
         = totalEdges kgOneCompany.graph + 1) :=
  c8_endpoint_enforcement kgOneCompany "- Acme -> partners_with -> Initech: joint venture" "t9"
    "Acme" "partners_with" "Initech" (some "joint venture") (by decide)

/-- Claim C9: for companies present in the graph, `get_shared_markets` is
the intersection of the two market-typed successor sets and is symmetric
in its two arguments. -/
theorem c9_shared_markets_commutative (kg : KG) (a b : String)
    (ha : hasNode kg.graph a = true) (hb : hasNode kg.graph b = true) :
    get_shared_markets kg a b = .ok (marketsOf kg.graph a ∩ marketsOf kg.graph b) ∧
    get_shared_markets kg a b = get_shared_markets kg b a := by
  have hmain : ∀ x y, hasNode kg.graph x = true → hasNode kg.graph y = true →
      get_shared_markets kg x y = .ok (marketsOf kg.graph x ∩ marketsOf kg.graph y) := by
    intro x y hx hy
    unfold get_shared_markets
    rw [if_neg (by rw [hx]; simp), if_neg (by rw [hy]; simp)]
  refine ⟨hmain a b ha hb, ?_⟩
  rw [hmain a b ha hb, hmain b a hb ha, Finset.inter_comm]

/-- Witness for C9: Acme and Globex over the shared Cloud market. -/
theorem c9_shared_markets_commutative_witness :
    get_shared_markets kgCloud "Acme" "Globex"
      = .ok (marketsOf kgCloud.graph "Acme" ∩ marketsOf kgCloud.graph "Globex") ∧
    get_shared_markets kgCloud "Acme" "Globex" = get_shared_markets kgCloud "Globex" "Acme" :=
  c9_shared_markets_commutative kgCloud "Acme" "Globex" (by decide) (by decide)

/-- Claim C10: `add_relationship` with a source or target name not present
in the graph silently creates each missing name as a node with NO
attributes (hence no `entity_type`); every such new node raises
`total_nodes` by one (one node total when source and target are the same
missing name) while every per-type stat is unchanged, and the target is
reachable from the source as a successor. -/
theorem c10_implicit_node (kg : KG) (s t ty : String) (attrs : Attrs) (now : String)
    (_h : hasNode kg.graph s = false ∨ hasNode kg.graph t = false) :
    (hasNode kg.graph s = false →
      hasNode (add_relationship kg s t ty attrs now).graph s = true ∧
      pyDictGet (nodeAttrs (add_relationship kg s t ty attrs now).graph s) "entity_type"
        = none) ∧
    (hasNode kg.graph t = false →
      hasNode (add_relationship kg s t ty attrs now).graph t = true ∧
      pyDictGet (nodeAttrs (add_relationship kg s t ty attrs now).graph t) "entity_type"
        = none) ∧
    (exportStats (add_relationship kg s t ty attrs now).graph).total_nodes
      = (exportStats kg.graph).total_nodes + (if hasNode kg.graph s = false then 1 else 0)
        + (if hasNode kg.graph t = false ∧ t ≠ s then 1 else 0) ∧
    (exportStats (add_relationship kg s t ty attrs now).graph).companies
      = (exportStats kg.graph).companies ∧
    (exportStats (add_relationship kg s t ty attrs now).graph).products
      = (exportStats kg.graph).products ∧
    (exportStats (add_relationship kg s t ty attrs now).graph).markets
      = (exportStats kg.graph).markets ∧
    t ∈ successorsOf (add_relationship kg s t ty attrs now).graph s := by
  have hgr : (add_relationship kg s t ty attrs now).graph
      = Graph.mk ((kg.graph.ensureNode s).ensureNode t).nodes
          (((kg.graph.ensureNode s).ensureNode t).edges
            ++ [⟨s, t, stampedRelAttrs ty attrs now⟩]) := rfl
  refine ⟨?_, ?_, ?_, ?_, ?_, ?_, ?_⟩
  · intro hs
    constructor
    · rw [hgr, hasNode_mk_nodes]
      exact hasNode_ensureNode_mono _ t s (hasNode_ensureNode_self kg.graph s)
    · rw [hgr, nodeAttrs_mk_nodes]
      by_cases hts : t = s
      · subst hts
        rw [ensureNode_present _ t (hasNode_ensureNode_self kg.graph t),
          nodeAttrs_ensureNode_absent kg.graph t hs]
        rfl
      · rw [nodeAttrs_ensureNode_ne _ t s (fun hst => hts hst.symm),
          nodeAttrs_ensureNode_absent kg.graph s hs]
        rfl
  · intro ht
    constructor
    · rw [hgr, hasNode_mk_nodes]
      exact hasNode_ensureNode_self _ t
    · rw [hgr, nodeAttrs_mk_nodes]
      by_cases hts : t = s
      · subst hts
        rw [ensureNode_present _ t (hasNode_ensureNode_self kg.graph t),
          nodeAttrs_ensureNode_absent kg.graph t ht]
        rfl
      · have h1 : hasNode (kg.graph.ensureNode s) t = false := by
          rw [hasNode_ensureNode_ne kg.graph s t hts]
          exact ht
        rw [nodeAttrs_ensureNode_absent _ t h1]
        rfl
  · show totalNodes (add_relationship kg s t ty attrs now).graph = totalNodes kg.graph + _ + _
    rw [hgr, totalNodes_mk_nodes, totalNodes_ensureNode, totalNodes_ensureNode]
    by_cases hts : t = s
    · subst hts
      rw [hasNode_ensureNode_self kg.graph t]
      simp
    · rw [hasNode_ensureNode_ne kg.graph s t hts]
      have hiff : (hasNode kg.graph t = false ∧ t ≠ s) ↔ hasNode kg.graph t = false :=
        ⟨fun hc => hc.1, fun hc => ⟨hc, hts⟩⟩
      rw [if_congr hiff rfl rfl]
  · show countEntityType (add_relationship kg s t ty attrs now).graph "company" = _
    rw [hgr, countEntityType_mk_nodes, countEntityType_ensureNode, countEntityType_ensureNode]
    rfl
  · show countEntityType (add_relationship kg s t ty attrs now).graph "product" = _
    rw [hgr, countEntityType_mk_nodes, countEntityType_ensureNode, countEntityType_ensureNode]
    rfl
  · show countEntityType (add_relationship kg s t ty attrs now).graph "market" = _
    rw [hgr, countEntityType_mk_nodes, countEntityType_ensureNode, countEntityType_ensureNode]
    rfl
  · rw [hgr]
    refine mem_successorsOf.mpr
      (hasEdge_iff.mpr ⟨⟨s, t, stampedRelAttrs ty attrs now⟩, ?_, rfl, rfl⟩)
    exact List.mem_append_right _ (List.mem_singleton_self _)

/-- Witness for C10: adding an edge between the two unknown names S and T
over a graph holding only Acme — both endpoints are created. -/
theorem c10_implicit_node_witness :
    (hasNode kgOneCompany.graph "S" = false →
      hasNode (add_relationship kgOneCompany "S" "T" "related_to" [] "t2").graph "S" = true ∧
      pyDictGet (nodeAttrs (add_relationship kgOneCompany "S" "T" "related_to" [] "t2").graph "S")
        "entity_type" = none) ∧
    (hasNode kgOneCompany.graph "T" = false →
      hasNode (add_relationship kgOneCompany "S" "T" "related_to" [] "t2").graph "T" = true ∧
      pyDictGet (nodeAttrs (add_relationship kgOneCompany "S" "T" "related_to" [] "t2").graph "T")
        "entity_type" = none) ∧
    (exportStats (add_relationship kgOneCompany "S" "T" "related_to" [] "t2").graph).total_nodes
      = (exportStats kgOneCompany.graph).total_nodes
        + (if hasNode kgOneCompany.graph "S" = false then 1 else 0)
        + (if hasNode kgOneCompany.graph "T" = false ∧ "T" ≠ "S" then 1 else 0) ∧
    (exportStats (add_relationship kgOneCompany "S" "T" "related_to" [] "t2").graph).companies
      = (exportStats kgOneCompany.graph).companies ∧
    (exportStats (add_relationship kgOneCompany "S" "T" "related_to" [] "t2").graph).products
      = (exportStats kgOneCompany.graph).products ∧
    (exportStats (add_relationship kgOneCompany "S" "T" "related_to" [] "t2").graph).markets
      = (exportStats kgOneCompany.graph).markets ∧
    "T" ∈ successorsOf (add_relationship kgOneCompany "S" "T" "related_to" [] "t2").graph "S" :=
  c10_implicit_node kgOneCompany "S" "T" "related_to" [] "t2" (Or.inl (by decide))

